import Mathlib

/-!
Shallow embedding of the OpenAlex harvesting scripts
(`scripts/nust_authors.py` and `scripts/conf_jour_outputs.py`).

Conventions of the embedding:
* Python strings are modelled as `List Char` (named `Str`) where character-level
  operations (lower, strip, substring) matter, and as Lean `String` where the
  value is only stored and compared.
* JSON nullability (`obj.get(k)` returning `None`, or an absent key) is modelled
  with `Option`; Python's `x or y` fallback on falsy values is `Option.orElse`
  together with an explicit empty-string check where the code distinguishes it.
* Wall-clock sleeps are modelled by recording the slept durations (as exact
  rationals) in a list; the float arithmetic `delay *= RETRY_BACKOFF` is
  modelled exactly over `ℚ`.
* The SQLite tables are modelled as association lists keyed by the primary key,
  with the scripts' `ON CONFLICT` clauses turned into explicit merge functions.
-/

namespace ResearchOutput

/-! ## Python string primitives (on `List Char`) -/

abbrev Str := List Char

/-- Python `s.lower()` (ASCII-adequate model). -/
def pyLower (s : Str) : Str := s.map Char.toLower

/-- Python `s.strip()`: drop whitespace from both ends. -/
def pyStrip (s : Str) : Str :=
  ((s.dropWhile Char.isWhitespace).reverse.dropWhile Char.isWhitespace).reverse

/-- Does `hay` start with `needle`? -/
def startsWith : Str → Str → Bool
  | [], _ => true
  | _ :: _, [] => false
  | a :: as, b :: bs => a = b && startsWith as bs

/-- Python `needle in hay` (substring containment). -/
def containsSub (hay needle : Str) : Bool :=
  if startsWith needle hay then true
  else
    match hay with
    | [] => false
    | _ :: t => containsSub t needle

/-! ## Retrying fetcher (`get_with_retry`, both scripts)

The two scripts' `get_with_retry` functions are identical except for the
initial delay (0.5 s in `nust_authors.py`, 0.6 s in `conf_jour_outputs.py`);
the embedding is parametrised by it.  The sequence of HTTP responses the
server would return to successive GET attempts is an oracle `Nat → Resp`. -/

def RETRY_MAX : Nat := 5

def RETRY_BACKOFF : ℚ := 8 / 5

def delayBase_nust : ℚ := 1 / 2

def delayBase_conf : ℚ := 3 / 5

structure Resp where
  status : Nat
  body : String
deriving DecidableEq, Repr

inductive FetchErr where
  /-- Modelled from `raise r.HTTPError(msg)` for 403/404/422 and any other unlisted status. -/
  | rejected (status : Nat)
  /-- Modelled from `raise r.HTTPError("Retries exceeded. " ...)`. -/
  | retriesExceeded (status : Nat)
deriving DecidableEq, Repr

/-- The check `resp.status_code in (429, 500, 502, 503, 504)`. -/
def isTransientStatus (s : Nat) : Bool :=
  s = 429 || s = 500 || s = 502 || s = 503 || s = 504

/-- The check `resp.status_code in (403, 404, 422)`. -/
def isFastFailStatus (s : Nat) : Bool :=
  s = 403 || s = 404 || s = 422

/-- The `while True` loop of `get_with_retry`; `attempt` and `delay` mirror the
Python locals, `idx` counts issued GETs.  Returns the outcome and the list of
slept delays in order.  The loop terminates because each transient iteration
increments `attempt` and raises once `attempt > RETRY_MAX`. -/
def getWithRetryGo (responses : Nat → Resp) (attempt idx : Nat) (delay : ℚ) :
    Except FetchErr Resp × List ℚ :=
  let resp := responses idx
  if resp.status = 200 then (Except.ok resp, [])
  else if isFastFailStatus resp.status then (Except.error (.rejected resp.status), [])
  else if isTransientStatus resp.status then
    if _h : attempt + 1 > RETRY_MAX then (Except.error (.retriesExceeded resp.status), [])
    else
      let rec_ := getWithRetryGo responses (attempt + 1) (idx + 1) (delay * RETRY_BACKOFF)
      (rec_.1, delay :: rec_.2)
  else (Except.error (.rejected resp.status), [])
termination_by RETRY_MAX + 1 - attempt
decreasing_by omega

/-- The function `get_with_retry(url, params)`: issue GETs against the response oracle,
starting from the configured base delay. -/
def get_with_retry (responses : Nat → Resp) (delay0 : ℚ) :
    Except FetchErr Resp × List ℚ :=
  getWithRetryGo responses 0 0 delay0

/-! ## Venue classification (`classify_venue_type`, `conf_jour_outputs.py`) -/

structure SourceJson where
  type : Option Str
deriving DecidableEq, Repr

structure PrimaryLocationJson where
  source : Option SourceJson
deriving DecidableEq, Repr

structure InstitutionJson where
  id : Option String
  display_name : Option String
deriving DecidableEq, Repr

/-- One element of a work's `authorships` array (the fields the scripts read). -/
structure AuthorshipJson where
  author_id : Option String
  author_position : Option String
  institutions : List InstitutionJson
deriving DecidableEq, Repr

/-- A work record as fetched by `conf_jour_outputs.py`
(select `id,display_name,publication_year,doi,authorships,primary_location,type,type_crossref`). -/
structure WorkConf where
  id : String
  display_name : Option String
  publication_year : Option Int
  doi : Option String
  authorships : List AuthorshipJson
  primary_location : Option PrimaryLocationJson
  type : Option Str
  type_crossref : Option Str
deriving DecidableEq, Repr

def strJournal : Str := "journal".toList
def strConference : Str := "conference".toList
def strProceedings : Str := "proceedings".toList
def strOther : Str := "other".toList

/-- The function `classify_venue_type(work)`: prefer `primary_location.source.type`
(lowered and stripped) when it is exactly "journal" or "conference";
otherwise fall back to substring checks on `type` / `type_crossref`. -/
def classify_venue_type (w : WorkConf) : Str :=
  let src := ((w.primary_location.getD ⟨none⟩).source.getD ⟨none⟩)
  let t := pyStrip (pyLower (src.type.getD []))
  if t = strJournal ∨ t = strConference then t
  else
    let wt := pyLower (w.type.getD [])
    let tcr := pyLower (w.type_crossref.getD [])
    if containsSub tcr strProceedings || containsSub wt strProceedings ||
        containsSub tcr strConference || containsSub wt strConference then strConference
    else if containsSub tcr strJournal || containsSub wt strJournal then strJournal
    else strOther

/-! ## Cursor pagination (`iter_authors`, `iter_author_works_2025`,
`iter_author_works_year`)

All four generators share the same loop: GET with the current cursor, yield
every record of `data["results"]`, read `data["meta"]["next_cursor"]`, stop
when it is absent or empty (`if not nxt: break`), else continue from it.
The remote service is an oracle `String → Page α` from cursor values to pages.
The loop has no bound of its own, so the embedding uses fuel: `none` means the
loop was still running after `fuel` pages, and divergence is
`∀ fuel, paginateEv server fuel c = none`.  The observable behaviour is the
interleaved trace of fetches and yields. -/

structure Page (α : Type) where
  results : List α
  next_cursor : Option String
deriving DecidableEq, Repr

/-- One observable event of a pagination run. -/
inductive PgEv (α : Type) where
  /-- a GET issued with this cursor value -/
  | fetch (c : String)
  /-- a record yielded to the consumer -/
  | emit (r : α)
deriving DecidableEq, Repr

/-- Python `not nxt` is true for `None` and for `""`; the loop continues only
on a non-empty cursor token. -/
def cursorContinue : Option String → Bool
  | none => false
  | some s => !(s = "")

/-- The pagination loop, producing its event trace.  `none` = fuel exhausted
with the loop still running. -/
def paginateEv {α : Type} (server : String → Page α) : Nat → String → Option (List (PgEv α))
  | 0, _ => none
  | fuel + 1, c =>
    let p := server c
    match p.next_cursor with
    | none => some (PgEv.fetch c :: p.results.map PgEv.emit)
    | some nxt =>
      if nxt = "" then some (PgEv.fetch c :: p.results.map PgEv.emit)
      else
        (paginateEv server fuel nxt).map
          (fun evs => (PgEv.fetch c :: p.results.map PgEv.emit) ++ evs)

/-- The records yielded in an event trace, in order. -/
def emitted {α : Type} (evs : List (PgEv α)) : List α :=
  evs.filterMap (fun ev => match ev with | .emit r => some r | .fetch _ => none)

/-- The cursors fetched in an event trace, in order. -/
def fetched {α : Type} (evs : List (PgEv α)) : List String :=
  evs.filterMap (fun ev => match ev with | .fetch c => some c | .emit _ => none)

/-- The predicate `IsChain server pages`: the server answers the cursors of `pages` in
sequence, each non-final page pointing at the next page's cursor with a
non-empty token, and the final page carrying an absent or empty next-cursor. -/
def IsChain {α : Type} (server : String → Page α) : List (String × List α) → Prop
  | [] => True
  | [(c, rs)] =>
      server c = ⟨rs, none⟩ ∨ server c = ⟨rs, some ""⟩
  | (c, rs) :: (c', rs') :: rest =>
      server c = ⟨rs, some c'⟩ ∧ c' ≠ "" ∧ IsChain server ((c', rs') :: rest)

/-! ## Topic resolver and cache (`get_topic_details`, `nust_authors.py`) -/

/-- A subfield/field/domain reference object (`id`, `display_name`). -/
structure HierRef where
  id : Option String
  display_name : Option String
deriving DecidableEq, Repr

/-- A `field` object as returned by `/topics/{id}`, possibly carrying a nested
`domain`. -/
structure FieldObj where
  id : Option String
  display_name : Option String
  domain : Option HierRef
deriving DecidableEq, Repr

/-- The parsed JSON body of a `/topics/{id}` response
(select `id,display_name,subfield,field,domain`). -/
structure TopicObj where
  id : Option String
  display_name : Option String
  subfield : Option HierRef
  field : Option FieldObj
  domain : Option HierRef
deriving DecidableEq, Repr

/-- The compact dict built by `get_topic_details` (`{} ` fallbacks become the
all-`none` records). -/
structure TopicDetails where
  id : Option String
  display_name : Option String
  subfield : HierRef
  field : FieldObj
  domain : HierRef
deriving DecidableEq, Repr

/-- The normalisation step of `get_topic_details`:
`domain` is `(obj.get("field") or ...).get("domain") or obj.get("domain") or ...`. -/
def normalizeTopic (obj : TopicObj) : TopicDetails :=
  { id := obj.id
    display_name := obj.display_name
    subfield := obj.subfield.getD ⟨none, none⟩
    field := obj.field.getD ⟨none, none, none⟩
    domain := ((obj.field.getD ⟨none, none, none⟩).domain.orElse
      (fun _ => obj.domain)).getD ⟨none, none⟩ }

/-- The `_topic_cache` module global: topic id → cached compact dict. -/
abbrev TopicCache := List (String × TopicDetails)

def lookupAssoc {β : Type} (l : List (String × β)) (k : String) : Option β :=
  (l.find? (fun p => p.1 = k)).map Prod.snd

/-- The function `get_topic_details(topic_id)`: return the cached record on a hit;
otherwise fetch `/topics/{id}` (the outcome of that GET is the `fetch`
argument), and only on success normalise and write the cache.  A failed fetch
propagates the error and leaves the cache untouched. -/
def get_topic_details (cache : TopicCache) (fetch : Except FetchErr TopicObj)
    (topic_id : String) : Except FetchErr TopicDetails × TopicCache :=
  match lookupAssoc cache topic_id with
  | some d => (Except.ok d, cache)
  | none =>
    match fetch with
    | Except.error e => (Except.error e, cache)
    | Except.ok obj =>
      let details := normalizeTopic obj
      (Except.ok details, (topic_id, details) :: cache)

/-! ## Topics table and its merge (`upsert_topic`, `nust_authors.py`)

The `topics` table row and the `ON CONFLICT(topic_id) DO UPDATE` clause, whose
every field is `COALESCE(excluded.x, topics.x)`. -/

structure TopicRow where
  display_name : Option String
  subfield_id : Option String
  subfield : Option String
  field_id : Option String
  field : Option String
  domain_id : Option String
  domain : Option String
deriving DecidableEq, Repr

/-- SQL `COALESCE(a, b)`: first non-null argument. -/
def coalesce {β : Type} (a b : Option β) : Option β :=
  match a with
  | some v => some v
  | none => b

/-- The `DO UPDATE SET x = COALESCE(excluded.x, topics.x)` clause applied to
every column: `old` is the stored row, `new_` the excluded (incoming) row. -/
def topicsMergeRow (old new_ : TopicRow) : TopicRow :=
  { display_name := coalesce new_.display_name old.display_name
    subfield_id := coalesce new_.subfield_id old.subfield_id
    subfield := coalesce new_.subfield old.subfield
    field_id := coalesce new_.field_id old.field_id
    field := coalesce new_.field old.field
    domain_id := coalesce new_.domain_id old.domain_id
    domain := coalesce new_.domain old.domain }

abbrev TopicsTable := List (String × TopicRow)

/-- The `INSERT ... ON CONFLICT(topic_id) DO UPDATE` of `upsert_topic`:
insert the row under its id, or merge column-wise on conflict. -/
def upsert_topic_row (tbl : TopicsTable) (tid : String) (row : TopicRow) : TopicsTable :=
  match tbl with
  | [] => [(tid, row)]
  | (k, v) :: t =>
    if k = tid then (k, topicsMergeRow v row) :: t
    else (k, v) :: upsert_topic_row t tid row

/-! ## Orcid normalisation (`(a.get("orcid") or "").replace(...)`) -/

/-- Python `hay.replace(needle, "")` for a non-empty `needle`: remove every
non-overlapping occurrence, left to right. -/
def removeSub (needle : Str) : Str → Str
  | [] => []
  | c :: t =>
    if _h : startsWith needle (c :: t) ∧ needle ≠ [] then
      removeSub needle ((c :: t).drop needle.length)
    else c :: removeSub needle t
termination_by l => l.length
decreasing_by
  · simp only [List.length_drop]
    have : needle.length ≠ 0 := fun hlen => _h.2 (List.eq_nil_of_length_eq_zero hlen)
    simp only [List.length_cons]
    omega
  · simp [Nat.lt_succ_self]

def orcidUrl : Str := "https://orcid.org/".toList

/-! ## The nust_authors harvest (`main`, phase 1 and 2)

The database state carries the three tables the authorship claims are about
(`authors`, `works_2025`, `authorships_2025`); the orthogonal
`topics`/`work_topics_2025` tables are modelled separately above, since
`attach_work_topics` touches no other state.  Tables with a scalar primary key
are association lists (insert order preserved, keys unique by construction of
the upserts). -/

def NUST_INST_ID : String := "I101993903"

/-- An author record as fetched by `iter_authors`
(select `id,display_name,orcid,works_count,last_known_institutions`). -/
structure AuthorJson where
  id : String
  display_name : Option String
  orcid : Option Str
  works_count : Option Int
  last_known_institutions : List InstitutionJson
deriving DecidableEq, Repr

/-- A work record as fetched by `iter_author_works_2025`
(select `id,display_name,publication_year,doi,authorships,primary_topic,topics`;
the topic fields feed only the separately-modelled topic tables). -/
structure WorkJson where
  id : String
  display_name : Option String
  publication_year : Option Int
  doi : Option String
  authorships : List AuthorshipJson
deriving DecidableEq, Repr

/-- A row of the `authors` table. -/
structure AuthorRow where
  display_name : Option String
  orcid : Str
  works_count : Option Int
  last_known_institution_id : Option String
  last_known_institution_name : Option String
deriving DecidableEq, Repr

/-- A row of the `works_2025` table. -/
structure WorkRow where
  title : Option String
  publication_year : Option Int
  doi : Option String
deriving DecidableEq, Repr

/-- A row of the `authorships_2025` table (`UNIQUE(work_id, author_id)`). -/
structure AuthorshipRow where
  work_id : String
  author_id : String
  author_position : Option String
  is_nust_affiliation : Int
deriving DecidableEq, Repr

/-- The harvested database state of `nust_authors.py`. -/
structure DB where
  authors : List (String × AuthorRow)
  works : List (String × WorkRow)
  authorships : List AuthorshipRow
deriving DecidableEq, Repr

/-- Plain `INSERT ... ON CONFLICT(key) DO UPDATE SET` with every column
overwritten: replace the row under the key, or append it. -/
def upsertAssoc {β : Type} (k : String) (v : β) : List (String × β) → List (String × β)
  | [] => [(k, v)]
  | (k', v') :: t => if k' = k then (k, v) :: t else (k', v') :: upsertAssoc k v t

/-- The function `upsert_author(cur, a)` of `nust_authors.py`. -/
def upsert_author (db : DB) (a : AuthorJson) : DB :=
  let lkis := a.last_known_institutions
  let row : AuthorRow :=
    { display_name := some (a.display_name.getD "")
      orcid := removeSub orcidUrl (a.orcid.getD [])
      works_count := some (a.works_count.getD 0)
      last_known_institution_id := (lkis.head?.map InstitutionJson.id).getD none
      last_known_institution_name := (lkis.head?.map InstitutionJson.display_name).getD none }
  { db with authors := upsertAssoc a.id row db.authors }

/-- The function `upsert_work(cur, wk)` of `nust_authors.py`. -/
def upsert_work (db : DB) (wk : WorkJson) : DB :=
  let row : WorkRow :=
    { title := some (wk.display_name.getD "")
      publication_year := wk.publication_year
      doi := wk.doi }
  { db with works := upsertAssoc wk.id row db.works }

/-- Python `if not au_id: continue`: skip a `None` or empty author id. -/
def validAuthorId : Option String → Option String
  | none => none
  | some s => if s = "" then none else some s

/-- The `INSERT OR IGNORE` into `authorships_2025` (`UNIQUE(work_id, author_id)`). -/
def insertIgnoreAuthorship (rows : List AuthorshipRow) (row : AuthorshipRow) :
    List AuthorshipRow :=
  if ∃ r ∈ rows, r.work_id = row.work_id ∧ r.author_id = row.author_id then rows
  else rows ++ [row]

/-- The function `attach_authorships(cur, work_id, wk)`: one `INSERT OR IGNORE`
per authorship with a non-empty author id. -/
def attach_authorships (db : DB) (work_id : String) (wk : WorkJson) : DB :=
  let rows :=
    wk.authorships.foldl (fun rows au =>
      match validAuthorId au.author_id with
      | none => rows
      | some aid =>
        let is_nust : Int :=
          if au.institutions.any (fun i => i.id = some NUST_INST_ID) then 1 else 0
        insertIgnoreAuthorship rows ⟨work_id, aid, au.author_position, is_nust⟩)
      db.authorships
  { db with authorships := rows }

/-- The per-work body of the `PerAuthor` loop:
`upsert_work(cur, wk); attach_authorships(cur, wid, wk)`
(the `attach_work_topics` call touches only the separately-modelled topic
tables). -/
def processWork (db : DB) (wk : WorkJson) : DB :=
  attach_authorships (upsert_work db wk) wk.id wk

/-- The result of draining `iter_author_works_2025(aid)`: the works the lazy
generator yielded, and `some e` when the stream then raised `HTTPError e`
instead of finishing (`none` = the stream completed normally). -/
abbrev WorksFetch := List WorkJson × Option FetchErr

/-- The warning printed by the `except` arm of the `PerAuthor` loop
(`f"Warning: works fetch failed for ..."`), which names the author id. -/
def warnMsg (aid : String) : String :=
  "Warning: works fetch failed for " ++ aid

/-- One iteration of the `PerAuthor` loop: the works yielded before any
failure are processed one by one (the generator is lazy), then a failure is
caught at the loop boundary and logged. -/
def processAuthorWorks (st : DB × List String) (aid : String) (fr : WorksFetch) :
    DB × List String :=
  let db' := fr.1.foldl processWork st.1
  match fr.2 with
  | none => (db', st.2)
  | some _ => (db', st.2 ++ [warnMsg aid])

/-- The `main()` of `nust_authors.py`, phases 1 and 2: upsert every author the
author paginator yields, read back the author ids, then run the guarded
per-author work loop.  `worksOf` is the oracle for what
`iter_author_works_2025(aid)` yields. -/
def runHarvest (authorsIn : List AuthorJson) (worksOf : String → WorksFetch) :
    DB × List String :=
  let db1 := authorsIn.foldl upsert_author ⟨[], [], []⟩
  let author_ids := db1.authors.map Prod.fst
  author_ids.foldl (fun st aid => processAuthorWorks st aid (worksOf aid)) (db1, [])

/-! ## The fact table (`upsert_fact`, `conf_jour_outputs.py`) -/

/-- A row of `fact_authorships_works` (`UNIQUE(author_id, work_id)`). -/
structure FactRow where
  author_id : String
  work_id : String
  year : Option Int
  venue_type : Str
deriving DecidableEq, Repr

/-- The `INSERT OR IGNORE` into `fact_authorships_works`. -/
def insertIgnoreFact (rows : List FactRow) (row : FactRow) : List FactRow :=
  if ∃ r ∈ rows, r.author_id = row.author_id ∧ r.work_id = row.work_id then rows
  else rows ++ [row]

/-- The function `upsert_fact(cur, w)`: one `INSERT OR IGNORE` per authorship
with a non-empty author id, carrying the work's year and classified venue
type. -/
def upsert_fact (rows : List FactRow) (w : WorkConf) : List FactRow :=
  let year := w.publication_year
  let vt := classify_venue_type w
  w.authorships.foldl (fun fs au =>
    match validAuthorId au.author_id with
    | none => fs
    | some aid => insertIgnoreFact fs ⟨aid, w.id, year, vt⟩) rows

/-- The author ids `upsert_fact` iterates over for a work (non-empty ids of
its authorships). -/
def factAuthorIds (w : WorkConf) : List String :=
  w.authorships.filterMap (fun au => validAuthorId au.author_id)

/-- The fact row `upsert_fact` builds for author `aid` of work `w`. -/
def mkFactRow (aid : String) (w : WorkConf) : FactRow :=
  ⟨aid, w.id, w.publication_year, classify_venue_type w⟩

/-- Observation of an (author, work) pair by a work record in the stream. -/
def observes (a wid : String) (w : WorkConf) : Prop :=
  w.id = wid ∧ a ∈ factAuthorIds w

instance (a wid : String) (w : WorkConf) : Decidable (observes a wid w) := by
  unfold observes; infer_instance

/-- Key match of a fact row against an (author, work) pair. -/
def factKeyIs (a wid : String) (r : FactRow) : Prop :=
  r.author_id = a ∧ r.work_id = wid

instance (a wid : String) (r : FactRow) : Decidable (factKeyIs a wid r) := by
  unfold factKeyIs; infer_instance

/-! ## Statement-support definitions -/

/-- The fact rows carrying a given (author, work) key. -/
def factFilter (a wid : String) (rows : List FactRow) : List FactRow :=
  rows.filter (fun r => decide (factKeyIs a wid r))

/-- Some fact row with the given (author, work) key is present. -/
def factKeyPresent (a wid : String) (rows : List FactRow) : Prop :=
  ∃ r ∈ rows, factKeyIs a wid r

instance (a wid : String) (rows : List FactRow) : Decidable (factKeyPresent a wid rows) := by
  unfold factKeyPresent; infer_instance

/-- The normalised primary-location source type the classifier inspects first:
`(work.get("primary_location") or ...).get("source") ... .lower().strip()`. -/
def primSrcType (w : WorkConf) : Str :=
  pyStrip (pyLower (((w.primary_location.getD ⟨none⟩).source.getD ⟨none⟩).type.getD []))

/-- The lowered `work.type` fallback string. -/
def wtLower (w : WorkConf) : Str := pyLower (w.type.getD [])

/-- The lowered `work.type_crossref` fallback string. -/
def tcrLower (w : WorkConf) : Str := pyLower (w.type_crossref.getD [])

/-- The seven merged columns of a `topics` row, in schema order. -/
def rowFields (r : TopicRow) : List (Option String) :=
  [r.display_name, r.subfield_id, r.subfield, r.field_id, r.field,
   r.domain_id, r.domain]

/-- The expected event trace of paginating a chain of pages: for each page, a
fetch of its cursor followed by its records in order. -/
def chainEvents {α : Type} (chain : List (String × List α)) : List (PgEv α) :=
  (chain.map (fun pr => PgEv.fetch pr.1 :: pr.2.map PgEv.emit)).flatten

/-- The `author_ids` list `main` reads back from the `authors` table after
phase 1 (`SELECT author_id FROM authors`). -/
def harvestAuthorIds (authorsIn : List AuthorJson) : List String :=
  (authorsIn.foldl upsert_author ⟨[], [], []⟩).authors.map Prod.fst

/-! ## Concrete instances for witnesses and counterexamples -/

/-- Mock server: 503 on the first two attempts, then 200. -/
def respBusyTwice : Nat → Resp := fun i => if i < 2 then ⟨503, "busy"⟩ else ⟨200, "payload"⟩

/-- Mock server: always 403. -/
def respForbidden : Nat → Resp := fun _ => ⟨403, "forbidden"⟩

/-- Mock server: always 503. -/
def respAlwaysBusy : Nat → Resp := fun _ => ⟨503, "busy"⟩

/-- A work whose structured source type says conference while the free-text
types say journal. -/
def c4_conflict : WorkConf :=
  { id := "W1", display_name := none, publication_year := none, doi := none,
    authorships := [],
    primary_location := some ⟨some ⟨some " Conference ".toList⟩⟩,
    type := some "journal-article".toList,
    type_crossref := some "journal-article".toList }

/-- A work with no structured source type and a crossref type containing
"proceedings". -/
def c4_proceedings : WorkConf :=
  { id := "W2", display_name := none, publication_year := none, doi := none,
    authorships := [], primary_location := none, type := none,
    type_crossref := some "Proceedings Article".toList }

/-- A work with neither signal. -/
def c4_signalless : WorkConf :=
  { id := "W3", display_name := none, publication_year := none, doi := none,
    authorships := [], primary_location := none, type := some "dataset".toList,
    type_crossref := none }

/-- A stored topic row with every hierarchy field non-null. -/
def c1_oldRow : TopicRow :=
  ⟨some "Old", some "S1", some "SubA", some "F1", some "FldA", some "D1", some "DomA"⟩

/-- A newly observed topic row with different non-null hierarchy values. -/
def c1_newRow : TopicRow :=
  ⟨some "New", some "S2", some "SubB", some "F2", some "FldB", some "D2", some "DomB"⟩

/-- A newly observed topic row carrying some non-null and some null fields. -/
def c1_mixedRow : TopicRow :=
  ⟨none, none, some "SubC", none, none, none, none⟩

/-- A stored topic row with null field/domain hierarchy. -/
def c7_bareRow : TopicRow :=
  ⟨some "T", none, none, none, none, none, none⟩

/-- An enriched observation for the same topic. -/
def c7_fullRow : TopicRow :=
  ⟨some "T", some "S1", some "Sub", some "F1", some "Fld", some "D1", some "Dom"⟩

/-- An observation carrying nulls for every hierarchy field. -/
def c7_nullRow : TopicRow :=
  ⟨some "T", none, none, none, none, none, none⟩

/-- A full `/topics/{id}` response object. -/
def c10_obj : TopicObj :=
  { id := some "https://openalex.org/T11636", display_name := some "Topic",
    subfield := some ⟨some "SF", some "Subfield"⟩,
    field := some ⟨some "F", some "Field", some ⟨some "D", some "Domain"⟩⟩,
    domain := none }

/-- A server that always answers with the same non-empty next-cursor. -/
def c5_server : String → Page Nat := fun _ => ⟨[7], some "*"⟩

/-- A two-page mock server whose last page has no next-cursor. -/
def c6_server : String → Page Nat := fun c =>
  if c = "*" then ⟨[1, 2], some "c2"⟩
  else if c = "c2" then ⟨[3], none⟩
  else ⟨[], none⟩

/-- The page chain served by `c6_server` from the start cursor. -/
def c6_chain : List (String × List Nat) := [("*", [1, 2]), ("c2", [3])]

/-- An authorship entry for the given author id, with or without a NUST
institution. -/
def mkAu (aid : String) (nust : Bool) : AuthorshipJson :=
  ⟨some aid, some "first", if nust then [⟨some NUST_INST_ID, some "NUST"⟩] else []⟩

/-- A harvested author record. -/
def mkAuthorJson (aid : String) : AuthorJson := ⟨aid, some "Alice", none, some 3, []⟩

/-- A work co-authored by the harvested author A1 and the non-harvested
co-author A2. -/
def c2_work : WorkJson := ⟨"W1", some "Paper", some 2025, none, [mkAu "A1" true, mkAu "A2" false]⟩

def c2_authors : List AuthorJson := [mkAuthorJson "A1"]

def c2_worksOf : String → WorksFetch := fun _ => ([c2_work], none)

/-- The authorship row inserted for the non-harvested co-author A2. -/
def c2_row : AuthorshipRow := ⟨"W1", "A2", some "first", 0⟩

def c9_authors : List AuthorJson := [mkAuthorJson "A1", mkAuthorJson "A2", mkAuthorJson "A3"]

/-- A work yielded by A2's stream before the stream fails. -/
def c9_work : WorkJson := ⟨"W2", some "Mid", some 2025, none, [mkAu "A2" true]⟩

/-- A2's work stream yields one work and then raises; A1's and A3's streams
succeed. -/
def c9_worksOf : String → WorksFetch := fun aid =>
  if aid = "A2" then ([c9_work], some (.retriesExceeded 503)) else ([c2_work], none)

/-- A work observed with year 2023 by authors A1 and A2. -/
def c8_w1 : WorkConf :=
  ⟨"W1", none, some 2023, none, [⟨some "A1", none, []⟩, ⟨some "A2", none, []⟩],
   none, some "journal-article".toList, none⟩

/-- The same (author, work) pair observed again with a different year. -/
def c8_w2 : WorkConf :=
  ⟨"W1", none, some 2024, none, [⟨some "A1", none, []⟩],
   none, some "proceedings-article".toList, none⟩

def c8_stream : List WorkConf := [c8_w1, c8_w2]

/-! ## Lemmas: retrying fetcher -/

theorem transient_not_200_not_fastFail {s : Nat} (h : isTransientStatus s = true) :
    s ≠ 200 ∧ isFastFailStatus s = false := by
  simp only [isTransientStatus, Bool.or_eq_true, decide_eq_true_eq] at h
  refine ⟨by omega, ?_⟩
  simp only [isFastFailStatus, Bool.or_eq_false_iff, decide_eq_false_iff_not]
  omega

theorem getWithRetryGo_200 (responses : Nat → Resp) (a idx : Nat) (d : ℚ)
    (h : (responses idx).status = 200) :
    getWithRetryGo responses a idx d = (Except.ok (responses idx), []) := by
  rw [getWithRetryGo]
  simp [h]

theorem getWithRetryGo_reject (responses : Nat → Resp) (a idx : Nat) (d : ℚ)
    (h200 : (responses idx).status ≠ 200)
    (htr : isTransientStatus (responses idx).status = false) :
    getWithRetryGo responses a idx d =
      (Except.error (.rejected (responses idx).status), []) := by
  rw [getWithRetryGo]
  by_cases hf : isFastFailStatus (responses idx).status = true <;> simp [h200, htr, hf]

theorem getWithRetryGo_transient_step (responses : Nat → Resp) (a idx : Nat) (d : ℚ)
    (ht : isTransientStatus (responses idx).status = true)
    (ha : a + 1 ≤ RETRY_MAX) :
    getWithRetryGo responses a idx d =
      ((getWithRetryGo responses (a + 1) (idx + 1) (d * RETRY_BACKOFF)).1,
       d :: (getWithRetryGo responses (a + 1) (idx + 1) (d * RETRY_BACKOFF)).2) := by
  obtain ⟨h200, hff⟩ := transient_not_200_not_fastFail ht
  rw [getWithRetryGo]
  simp [h200, hff, ht, Nat.not_lt.mpr ha]

theorem getWithRetryGo_exhaust_now (responses : Nat → Resp) (a idx : Nat) (d : ℚ)
    (ht : isTransientStatus (responses idx).status = true)
    (ha : RETRY_MAX < a + 1) :
    getWithRetryGo responses a idx d =
      (Except.error (.retriesExceeded (responses idx).status), []) := by
  obtain ⟨h200, hff⟩ := transient_not_200_not_fastFail ht
  rw [getWithRetryGo]
  simp [h200, hff, ht, ha]

/-- The geometric sleep schedule: `k` sleeps starting at `d`, each multiplied
by the backoff factor. -/
theorem backoff_schedule_cons (d : ℚ) (k : Nat) :
    d :: (List.range k).map (fun j => d * RETRY_BACKOFF * RETRY_BACKOFF ^ j) =
      (List.range (k + 1)).map (fun j => d * RETRY_BACKOFF ^ j) := by
  have hfun : ((fun j => d * RETRY_BACKOFF ^ j) ∘ Nat.succ) =
      (fun j => d * RETRY_BACKOFF * RETRY_BACKOFF ^ j) := by
    funext j
    simp only [Function.comp_apply]
    rw [pow_succ]
    ring
  rw [List.range_succ_eq_map, List.map_cons, List.map_map, hfun, pow_zero, mul_one]

theorem getWithRetryGo_success (responses : Nat → Resp) (k : Nat) :
    ∀ (a idx : Nat) (d : ℚ), a + k ≤ RETRY_MAX →
      (∀ i, i < k → isTransientStatus (responses (idx + i)).status = true) →
      (responses (idx + k)).status = 200 →
      getWithRetryGo responses a idx d =
        (Except.ok (responses (idx + k)),
         (List.range k).map (fun j => d * RETRY_BACKOFF ^ j)) := by
  induction k with
  | zero =>
    intro a idx d _ _ h200
    simpa using getWithRetryGo_200 responses a idx d (by simpa using h200)
  | succ k ih =>
    intro a idx d hle htrans h200
    have ht0 : isTransientStatus (responses idx).status = true := by
      simpa using htrans 0 (Nat.succ_pos k)
    rw [getWithRetryGo_transient_step responses a idx d ht0 (by omega)]
    have hrec := ih (a + 1) (idx + 1) (d * RETRY_BACKOFF) (by omega)
      (fun i hi => by
        have := htrans (i + 1) (by omega)
        simpa [Nat.add_assoc, Nat.add_comm 1 i] using this)
      (by
        have : idx + 1 + k = idx + (k + 1) := by omega
        rw [this]; exact h200)
    rw [hrec]
    have : idx + 1 + k = idx + (k + 1) := by omega
    rw [this, backoff_schedule_cons]

theorem getWithRetryGo_exhaust (responses : Nat → Resp) (m : Nat) :
    ∀ (a idx : Nat) (d : ℚ), a + m = RETRY_MAX →
      (∀ i, i ≤ m → isTransientStatus (responses (idx + i)).status = true) →
      getWithRetryGo responses a idx d =
        (Except.error (.retriesExceeded (responses (idx + m)).status),
         (List.range m).map (fun j => d * RETRY_BACKOFF ^ j)) := by
  induction m with
  | zero =>
    intro a idx d ha htrans
    have ht0 : isTransientStatus (responses idx).status = true := by
      simpa using htrans 0 (Nat.le_refl 0)
    simpa using getWithRetryGo_exhaust_now responses a idx d ht0 (by omega)
  | succ m ih =>
    intro a idx d ha htrans
    have ht0 : isTransientStatus (responses idx).status = true := by
      simpa using htrans 0 (Nat.zero_le _)
    rw [getWithRetryGo_transient_step responses a idx d ht0 (by omega)]
    have hrec := ih (a + 1) (idx + 1) (d * RETRY_BACKOFF) (by omega)
      (fun i hi => by
        have := htrans (i + 1) (by omega)
        simpa [Nat.add_assoc, Nat.add_comm 1 i] using this)
    rw [hrec]
    have : idx + 1 + m = idx + (m + 1) := by omega
    rw [this, backoff_schedule_cons]

/-- C3: `get_with_retry` returns the successful response's body exactly when an
attempt returns 200; 429/500/502/503/504 are retried with a sleep before each
retry, the delays forming the geometric progression `d, d·1.6, d·1.6², …`, and
after `RETRY_MAX` retries a retries-exhausted error is raised; every other
non-200 status (403/404/422 and unlisted ones) fails immediately with zero
retries and zero sleeps. -/
theorem C3_retry_policy (responses : Nat → Resp) (d : ℚ) :
    (1 : ℚ) < RETRY_BACKOFF ∧
    (∀ k, k ≤ RETRY_MAX →
      (∀ i, i < k → isTransientStatus (responses i).status = true) →
      (responses k).status = 200 →
      get_with_retry responses d =
        (Except.ok (responses k), (List.range k).map (fun j => d * RETRY_BACKOFF ^ j))) ∧
    ((∀ i, i ≤ RETRY_MAX → isTransientStatus (responses i).status = true) →
      get_with_retry responses d =
        (Except.error (.retriesExceeded (responses RETRY_MAX).status),
         (List.range RETRY_MAX).map (fun j => d * RETRY_BACKOFF ^ j))) ∧
    ((responses 0).status ≠ 200 → isTransientStatus (responses 0).status = false →
      get_with_retry responses d = (Except.error (.rejected (responses 0).status), [])) := by
  refine ⟨by norm_num [RETRY_BACKOFF], ?_, ?_, ?_⟩
  · intro k hk htrans h200
    have := getWithRetryGo_success responses k 0 0 d (by omega)
      (fun i hi => by simpa using htrans i hi) (by simpa using h200)
    simpa [get_with_retry] using this
  · intro htrans
    have := getWithRetryGo_exhaust responses RETRY_MAX 0 0 d (by omega)
      (fun i hi => by simpa using htrans i hi)
    simpa [get_with_retry] using this
  · intro h200 htr
    simpa [get_with_retry] using getWithRetryGo_reject responses 0 0 d h200 htr

/-- C3 witness: a 503-503-200 fetch succeeds after exactly two geometric
sleeps; a 403 fetch fails on the first attempt with no sleep; an always-503
fetch exhausts the five retries. -/
theorem C3_retry_policy_witness :
    get_with_retry respBusyTwice delayBase_nust =
      (Except.ok (respBusyTwice 2),
       (List.range 2).map (fun j => delayBase_nust * RETRY_BACKOFF ^ j)) ∧
    get_with_retry respForbidden delayBase_nust =
      (Except.error (.rejected (respForbidden 0).status), []) ∧
    get_with_retry respAlwaysBusy delayBase_conf =
      (Except.error (.retriesExceeded (respAlwaysBusy RETRY_MAX).status),
       (List.range RETRY_MAX).map (fun j => delayBase_conf * RETRY_BACKOFF ^ j)) := by
  refine ⟨?_, ?_, ?_⟩
  · exact (C3_retry_policy respBusyTwice delayBase_nust).2.1 2 (by decide)
      (by decide) (by decide)
  · exact (C3_retry_policy respForbidden delayBase_nust).2.2.2 (by decide) (by decide)
  · exact (C3_retry_policy respAlwaysBusy delayBase_conf).2.2.1 (by decide)

/-! ## Lemmas: venue classification -/

/-- C4: venue classification is deterministic and order-sensitive: a normalised
primary source type equal to "journal" or "conference" is returned as is,
regardless of the `type`/`type_crossref` fields; otherwise a
"proceedings"/"conference" substring in either lowered fallback string gives
"conference"; otherwise a "journal" substring gives "journal"; otherwise
"other". -/
theorem C4_classify_venue (w : WorkConf) :
    ((primSrcType w = strJournal ∨ primSrcType w = strConference) →
      classify_venue_type w = primSrcType w) ∧
    (¬(primSrcType w = strJournal ∨ primSrcType w = strConference) →
      ((containsSub (tcrLower w) strProceedings || containsSub (wtLower w) strProceedings ||
          containsSub (tcrLower w) strConference || containsSub (wtLower w) strConference) = true →
        classify_venue_type w = strConference) ∧
      ((containsSub (tcrLower w) strProceedings || containsSub (wtLower w) strProceedings ||
          containsSub (tcrLower w) strConference || containsSub (wtLower w) strConference) = false →
        (containsSub (tcrLower w) strJournal || containsSub (wtLower w) strJournal) = true →
        classify_venue_type w = strJournal) ∧
      ((containsSub (tcrLower w) strProceedings || containsSub (wtLower w) strProceedings ||
          containsSub (tcrLower w) strConference || containsSub (wtLower w) strConference) = false →
        (containsSub (tcrLower w) strJournal || containsSub (wtLower w) strJournal) = false →
        classify_venue_type w = strOther)) := by
  unfold primSrcType wtLower tcrLower
  constructor
  · intro h
    simp only [classify_venue_type]
    rw [if_pos h]
  · intro hno
    refine ⟨?_, ?_, ?_⟩
    · intro hc
      simp only [classify_venue_type]
      rw [if_neg hno, if_pos hc]
    · intro hc hj
      simp only [classify_venue_type]
      rw [if_neg hno, if_neg (by simp [hc]), if_pos hj]
    · intro hc hj
      simp only [classify_venue_type]
      rw [if_neg hno, if_neg (by simp [hc]), if_neg (by simp [hj])]

/-- C4 witness: a structured "conference" source type wins over conflicting
journal-flavoured `type`/`type_crossref`; "proceedings" in `type_crossref`
alone gives "conference"; no signal gives "other". -/
theorem C4_classify_venue_witness :
    classify_venue_type c4_conflict = primSrcType c4_conflict ∧
    primSrcType c4_conflict = strConference ∧
    wtLower c4_conflict = "journal-article".toList ∧
    classify_venue_type c4_proceedings = strConference ∧
    classify_venue_type c4_signalless = strOther := by
  refine ⟨(C4_classify_venue c4_conflict).1 (Or.inr (by decide)), by decide, by decide, ?_, ?_⟩
  · exact ((C4_classify_venue c4_proceedings).2 (by decide)).1 (by decide)
  · exact ((C4_classify_venue c4_signalless).2 (by decide)).2.2 (by decide) (by decide)

/-! ## Lemmas: topics-table merge -/

theorem lookupAssoc_cons_eq {β : Type} (k : String) (v : β) (l : List (String × β)) :
    lookupAssoc ((k, v) :: l) k = some v := by
  simp [lookupAssoc, List.find?]

theorem lookupAssoc_cons_ne {β : Type} (k : String) (v : β) (l : List (String × β))
    (tid : String) (hk : ¬ k = tid) :
    lookupAssoc ((k, v) :: l) tid = lookupAssoc l tid := by
  simp [lookupAssoc, List.find?, hk]

theorem lookupAssoc_upsert_topic_row (tbl : TopicsTable) (tid : String) (r1 : TopicRow) :
    ∀ r0, lookupAssoc tbl tid = some r0 →
      lookupAssoc (upsert_topic_row tbl tid r1) tid = some (topicsMergeRow r0 r1) := by
  induction tbl with
  | nil => intro r0 h; simp [lookupAssoc] at h
  | cons hd t ih =>
    obtain ⟨k, v⟩ := hd
    intro r0 h
    by_cases hk : k = tid
    · subst hk
      rw [lookupAssoc_cons_eq] at h
      injection h with h
      subst h
      simp only [upsert_topic_row, if_pos rfl]
      exact lookupAssoc_cons_eq k (topicsMergeRow v r1) t
    · rw [lookupAssoc_cons_ne k v t tid hk] at h
      simp only [upsert_topic_row, if_neg hk]
      rw [lookupAssoc_cons_ne k v _ tid hk]
      exact ih r0 h

theorem merge_field_new_some (r0 r1 : TopicRow) (i : Nat) (v : String)
    (h : (rowFields r1).get? i = some (some v)) :
    (rowFields (topicsMergeRow r0 r1)).get? i = some (some v) := by
  rcases i with _ | _ | _ | _ | _ | _ | _ | i <;>
    simp [rowFields] at h <;>
    simp [rowFields, topicsMergeRow, coalesce, h]

theorem merge_field_new_none (r0 r1 : TopicRow) (i : Nat)
    (h : (rowFields r1).get? i = some none) :
    (rowFields (topicsMergeRow r0 r1)).get? i = (rowFields r0).get? i := by
  rcases i with _ | _ | _ | _ | _ | _ | _ | i <;>
    simp [rowFields] at h <;>
    simp [rowFields, topicsMergeRow, coalesce, h]

/-- C1 (amended): on a topic upsert for an already-stored topic id, each
hierarchy field is merged by "take newly-observed non-null, else keep
existing": a non-null incoming value overwrites the stored value even when the
stored value is a different non-null one, and only a null incoming value
leaves the stored value unchanged. -/
theorem C1_topic_merge_new_wins (tbl : TopicsTable) (tid : String) (r0 r1 : TopicRow)
    (h : lookupAssoc tbl tid = some r0) :
    lookupAssoc (upsert_topic_row tbl tid r1) tid = some (topicsMergeRow r0 r1) ∧
    (∀ i v, (rowFields r1).get? i = some (some v) →
      (rowFields (topicsMergeRow r0 r1)).get? i = some (some v)) ∧
    (∀ i, (rowFields r1).get? i = some none →
      (rowFields (topicsMergeRow r0 r1)).get? i = (rowFields r0).get? i) :=
  ⟨lookupAssoc_upsert_topic_row tbl tid r1 r0 h,
   fun i v hv => merge_field_new_some r0 r1 i v hv,
   fun i hn => merge_field_new_none r0 r1 i hn⟩

/-- C1 counterexample: topic T1 is stored with non-null subfield "SubA"; a new
observation carrying the different non-null subfield "SubB" overwrites it,
where the claim says the stored non-null value is kept unchanged. -/
theorem C1_counterexample :
    c1_oldRow.subfield = some "SubA" ∧ c1_newRow.subfield = some "SubB" ∧
    lookupAssoc (upsert_topic_row [("T1", c1_oldRow)] "T1" c1_newRow) "T1" =
      some (topicsMergeRow c1_oldRow c1_newRow) ∧
    (topicsMergeRow c1_oldRow c1_newRow).subfield = some "SubB" := by decide

/-- C1 witness: a mixed observation (non-null subfield, null domain) on a fully
populated stored row. -/
theorem C1_topic_merge_new_wins_witness :
    lookupAssoc (upsert_topic_row [("T1", c1_oldRow)] "T1" c1_mixedRow) "T1" =
      some (topicsMergeRow c1_oldRow c1_mixedRow) ∧
    (rowFields (topicsMergeRow c1_oldRow c1_mixedRow)).get? 2 = some (some "SubC") ∧
    (rowFields (topicsMergeRow c1_oldRow c1_mixedRow)).get? 6 = (rowFields c1_oldRow).get? 6 := by
  obtain ⟨h1, h2, h3⟩ :=
    C1_topic_merge_new_wins [("T1", c1_oldRow)] "T1" c1_oldRow c1_mixedRow (by decide)
  exact ⟨h1, h2 2 "SubC" (by decide), h3 6 (by decide)⟩

/-- C7: topic enrichment is monotonic in null-ness: a null stored hierarchy
field is filled by a later non-null observation, and a non-null stored value
is never erased by a later null observation. -/
theorem C7_monotonic_enrichment (tbl : TopicsTable) (tid : String) (r0 r1 : TopicRow)
    (h : lookupAssoc tbl tid = some r0) :
    ∃ r', lookupAssoc (upsert_topic_row tbl tid r1) tid = some r' ∧
      (∀ i v, (rowFields r0).get? i = some none → (rowFields r1).get? i = some (some v) →
        (rowFields r').get? i = some (some v)) ∧
      (∀ i v, (rowFields r0).get? i = some (some v) → (rowFields r1).get? i = some none →
        (rowFields r').get? i = some (some v)) := by
  refine ⟨topicsMergeRow r0 r1, lookupAssoc_upsert_topic_row tbl tid r1 r0 h, ?_, ?_⟩
  · intro i v _ h1
    exact merge_field_new_some r0 r1 i v h1
  · intro i v h0 h1
    rw [merge_field_new_none r0 r1 i h1]
    exact h0

/-- C7 witness: a bare row is enriched by a full observation, and a full row
survives an all-null observation, at the `field` column (index 4). -/
theorem C7_monotonic_enrichment_witness :
    (∃ r', lookupAssoc (upsert_topic_row [("T1", c7_bareRow)] "T1" c7_fullRow) "T1" = some r' ∧
      (rowFields r').get? 4 = some (some "Fld")) ∧
    (∃ r', lookupAssoc (upsert_topic_row [("T2", c7_fullRow)] "T2" c7_nullRow) "T2" = some r' ∧
      (rowFields r').get? 4 = some (some "Fld")) := by
  constructor
  · obtain ⟨r', hl, he, _⟩ :=
      C7_monotonic_enrichment [("T1", c7_bareRow)] "T1" c7_bareRow c7_fullRow (by decide)
    exact ⟨r', hl, he 4 "Fld" (by decide) (by decide)⟩
  · obtain ⟨r', hl, _, hk⟩ :=
      C7_monotonic_enrichment [("T2", c7_fullRow)] "T2" c7_fullRow c7_nullRow (by decide)
    exact ⟨r', hl, hk 4 "Fld" (by decide) (by decide)⟩

/-! ## Lemmas: topic resolver cache -/

/-- C10: on a cache miss, a failed `/topics/{id}` fetch propagates the error
and leaves the cache untouched (so the failure is never cached and a later
resolve re-attempts the fetch); only a successful fetch writes the cache, and
it writes exactly the normalised record it returns. -/
theorem C10_cache_only_on_success (cache : TopicCache) (tid : String)
    (hmiss : lookupAssoc cache tid = none) :
    (∀ e, get_topic_details cache (Except.error e) tid = (Except.error e, cache)) ∧
    (∀ obj, get_topic_details cache (Except.ok obj) tid =
      (Except.ok (normalizeTopic obj), (tid, normalizeTopic obj) :: cache)) ∧
    (∀ e obj,
      (get_topic_details (get_topic_details cache (Except.error e) tid).2
        (Except.ok obj) tid).1 = Except.ok (normalizeTopic obj)) := by
  refine ⟨?_, ?_, ?_⟩ <;> intros <;> simp [get_topic_details, hmiss]

/-- C10 witness: on the empty cache, a 503-exhausted fetch caches nothing, a
successful fetch caches the normalised record, and a resolve retried after a
failure succeeds. -/
theorem C10_cache_only_on_success_witness :
    get_topic_details [] (Except.error (.retriesExceeded 503)) "T11636" =
      (Except.error (.retriesExceeded 503), []) ∧
    get_topic_details [] (Except.ok c10_obj) "T11636" =
      (Except.ok (normalizeTopic c10_obj), [("T11636", normalizeTopic c10_obj)]) ∧
    (get_topic_details (get_topic_details [] (Except.error (.rejected 404)) "T11636").2
      (Except.ok c10_obj) "T11636").1 = Except.ok (normalizeTopic c10_obj) := by
  obtain ⟨h1, h2, h3⟩ := C10_cache_only_on_success [] "T11636" (by decide)
  exact ⟨h1 _, h2 _, h3 _ _⟩

/-! ## Lemmas: pagination -/

theorem paginate_closed_cycle_diverges {α : Type} (server : String → Page α)
    (P : String → Prop)
    (hP : ∀ c, P c → ∃ nxt, (server c).next_cursor = some nxt ∧ ¬ nxt = "" ∧ P nxt) :
    ∀ (fuel : Nat) (c : String), P c → paginateEv server fuel c = none := by
  intro fuel
  induction fuel with
  | zero => intro c _; rfl
  | succ fuel ih =>
    intro c hc
    obtain ⟨nxt, hnc, hne, hPn⟩ := hP c hc
    simp only [paginateEv]
    rw [hnc]
    simp [hne, ih nxt hPn]

/-- C5 (amended): the pagination loop has no repeated-cursor detection: when
every reachable response carries a non-empty next-cursor — in particular when
the server keeps answering a cursor that was already used — pagination never
terminates, at any fuel bound; it terminates only by reaching a response whose
next-cursor is absent or empty. -/
theorem C5_repeating_cursor_diverges {α : Type} (server : String → Page α)
    (P : String → Prop) (c0 : String)
    (hP : ∀ c, P c → ∃ nxt, (server c).next_cursor = some nxt ∧ ¬ nxt = "" ∧ P nxt)
    (h0 : P c0) (fuel : Nat) : paginateEv server fuel c0 = none :=
  paginate_closed_cycle_diverges server P hP fuel c0 h0

/-- C5 counterexample: a server that always answers with next-cursor "*" —
equal to the start cursor already used — makes the loop run forever: there is
no fuel bound at which it has terminated, refuting "pagination still
terminates". -/
theorem C5_counterexample :
    (c5_server "*").next_cursor = some "*" ∧
    ¬ ∃ fuel, (paginateEv c5_server fuel "*").isSome = true := by
  refine ⟨rfl, ?_⟩
  rintro ⟨fuel, h⟩
  rw [paginate_closed_cycle_diverges c5_server (fun _ => True)
    (fun c _ => ⟨"*", rfl, by decide, trivial⟩) fuel "*" trivial] at h
  simp at h

/-- C5 witness: the divergence theorem applied to the repeating server at fuel
1000. -/
theorem C5_repeating_cursor_diverges_witness :
    paginateEv c5_server 1000 "*" = none :=
  C5_repeating_cursor_diverges c5_server (fun _ => True) "*"
    (fun c _ => ⟨"*", rfl, by decide, trivial⟩) trivial 1000

theorem paginateEv_chain {α : Type} (server : String → Page α) :
    ∀ (rest : List (String × List α)) (c : String) (rs : List α) (fuel : Nat),
      IsChain server ((c, rs) :: rest) → rest.length + 1 ≤ fuel →
      paginateEv server fuel c = some (chainEvents ((c, rs) :: rest)) := by
  intro rest
  induction rest with
  | nil =>
    intro c rs fuel hchain hfuel
    obtain ⟨f, rfl⟩ : ∃ f, fuel = f + 1 := ⟨fuel - 1, by omega⟩
    simp only [IsChain] at hchain
    rcases hchain with h | h <;>
      · simp only [paginateEv]
        rw [h]
        simp [chainEvents]
  | cons hd rest ih =>
    intro c rs fuel hchain hfuel
    obtain ⟨c2, rs2⟩ := hd
    simp only [IsChain] at hchain
    obtain ⟨hsrv, hne, hrest⟩ := hchain
    obtain ⟨f, rfl⟩ : ∃ f, fuel = f + 1 := ⟨fuel - 1, by omega⟩
    have hf : rest.length + 1 ≤ f := by
      simp only [List.length_cons] at hfuel
      omega
    simp only [paginateEv]
    rw [hsrv]
    simp [hne, ih c2 rs2 f hrest hf, chainEvents]

theorem emitted_append {α : Type} (a b : List (PgEv α)) :
    emitted (a ++ b) = emitted a ++ emitted b := by
  simp [emitted, List.filterMap_append]

theorem fetched_append {α : Type} (a b : List (PgEv α)) :
    fetched (a ++ b) = fetched a ++ fetched b := by
  simp [fetched, List.filterMap_append]

theorem emitted_page {α : Type} (c : String) (rs : List α) :
    emitted (PgEv.fetch c :: rs.map PgEv.emit) = rs := by
  induction rs with
  | nil => rfl
  | cons r t ih => simpa [emitted, List.filterMap_cons] using ih

theorem fetched_page {α : Type} (c : String) (rs : List α) :
    fetched (PgEv.fetch c :: rs.map PgEv.emit) = [c] := by
  induction rs with
  | nil => rfl
  | cons r t _ => simp [fetched, List.filterMap_cons]

theorem chainEvents_cons {α : Type} (c : String) (rs : List α)
    (t : List (String × List α)) :
    chainEvents ((c, rs) :: t) = (PgEv.fetch c :: rs.map PgEv.emit) ++ chainEvents t := by
  simp [chainEvents]

theorem emitted_chainEvents {α : Type} (chain : List (String × List α)) :
    emitted (chainEvents chain) = (chain.map Prod.snd).flatten := by
  induction chain with
  | nil => rfl
  | cons hd t ih =>
    obtain ⟨c, rs⟩ := hd
    rw [chainEvents_cons, emitted_append, emitted_page, ih]
    simp

theorem fetched_chainEvents {α : Type} (chain : List (String × List α)) :
    fetched (chainEvents chain) = chain.map Prod.fst := by
  induction chain with
  | nil => rfl
  | cons hd t ih =>
    obtain ⟨c, rs⟩ := hd
    rw [chainEvents_cons, fetched_append, fetched_page, ih]
    simp

/-- C6: fed a finite chain of pages whose last page carries an absent or empty
next-cursor, the paginator terminates with the event trace that, for each page
in order, fetches it exactly once and then yields each of its records once —
so it emits exactly the concatenation of all pages' results, each record
before the next page's fetch, with no duplicate fetch of the final page. -/
theorem C6_pagination_chain {α : Type} (server : String → Page α)
    (c : String) (rs : List α) (rest : List (String × List α)) (fuel : Nat)
    (hchain : IsChain server ((c, rs) :: rest)) (hfuel : rest.length + 1 ≤ fuel) :
    paginateEv server fuel c = some (chainEvents ((c, rs) :: rest)) ∧
    emitted (chainEvents ((c, rs) :: rest)) = (((c, rs) :: rest).map Prod.snd).flatten ∧
    fetched (chainEvents ((c, rs) :: rest)) = ((c, rs) :: rest).map Prod.fst :=
  ⟨paginateEv_chain server rest c rs fuel hchain hfuel,
   emitted_chainEvents ((c, rs) :: rest),
   fetched_chainEvents ((c, rs) :: rest)⟩

/-- C6 witness: the two-page mock server, at exactly enough fuel. -/
theorem C6_pagination_chain_witness :
    paginateEv c6_server 2 "*" = some (chainEvents c6_chain) ∧
    emitted (chainEvents c6_chain) = (c6_chain.map Prod.snd).flatten ∧
    fetched (chainEvents c6_chain) = c6_chain.map Prod.fst := by
  have h := C6_pagination_chain c6_server "*" [1, 2] [("c2", [3])] 2
    (by simp only [IsChain]; exact ⟨rfl, by decide, Or.inl rfl⟩) (by decide)
  exact h

/-! ## Lemmas: association-list upserts -/

theorem lookupAssoc_upsertAssoc_self {β : Type} (k : String) (v : β) :
    ∀ l : List (String × β), lookupAssoc (upsertAssoc k v l) k = some v := by
  intro l
  induction l with
  | nil => simp [upsertAssoc, lookupAssoc, List.find?]
  | cons hd t ih =>
    obtain ⟨k', v'⟩ := hd
    by_cases hk : k' = k
    · subst hk
      simp only [upsertAssoc, if_pos rfl]
      exact lookupAssoc_cons_eq k' v t
    · simp only [upsertAssoc, if_neg hk]
      rw [lookupAssoc_cons_ne k' v' _ k hk]
      exact ih

theorem lookupAssoc_upsertAssoc_ne {β : Type} (k : String) (v : β) (k' : String)
    (hk : ¬ k = k') :
    ∀ l : List (String × β), lookupAssoc (upsertAssoc k v l) k' = lookupAssoc l k' := by
  intro l
  induction l with
  | nil => simp [upsertAssoc, lookupAssoc, List.find?, hk]
  | cons hd t ih =>
    obtain ⟨k0, v0⟩ := hd
    by_cases h0 : k0 = k
    · subst h0
      have hrw : upsertAssoc k0 v ((k0, v0) :: t) = (k0, v) :: t := by
        simp [upsertAssoc]
      rw [hrw, lookupAssoc_cons_ne k0 v t k' hk, lookupAssoc_cons_ne k0 v0 t k' hk]
    · have hrw : upsertAssoc k v ((k0, v0) :: t) = (k0, v0) :: upsertAssoc k v t := by
        simp [upsertAssoc, h0]
      rw [hrw]
      by_cases h1 : k0 = k'
      · subst h1
        rw [lookupAssoc_cons_eq, lookupAssoc_cons_eq]
      · rw [lookupAssoc_cons_ne k0 v0 _ k' h1, lookupAssoc_cons_ne k0 v0 t k' h1]
        exact ih

theorem lookupAssoc_upsertAssoc_isSome {β : Type} (k : String) (v : β)
    (l : List (String × β)) (k' : String) :
    (lookupAssoc (upsertAssoc k v l) k').isSome = true ↔
      k' = k ∨ (lookupAssoc l k').isSome = true := by
  by_cases hk : k = k'
  · subst hk
    rw [lookupAssoc_upsertAssoc_self k v l]
    simp
  · rw [lookupAssoc_upsertAssoc_ne k v k' hk]
    have hne : ¬ k' = k := fun h => hk h.symm
    simp [hne]

/-- Generic preservation of a row predicate along a left fold that only keeps
or appends rows. -/
theorem foldl_preserve {β γ : Type} (C : γ → Prop) (step : List γ → β → List γ)
    (hstep : ∀ rows b, (∀ r ∈ rows, C r) → ∀ r ∈ step rows b, C r) :
    ∀ (l : List β) (rows : List γ), (∀ r ∈ rows, C r) → ∀ r ∈ l.foldl step rows, C r := by
  intro l
  induction l with
  | nil => intro rows h; simpa using h
  | cons b t ih =>
    intro rows h
    exact ih (step rows b) (hstep rows b h)

/-! ## Lemmas: the nust harvest state machine -/

theorem upsert_author_works (db : DB) (a : AuthorJson) :
    (upsert_author db a).works = db.works := rfl

theorem upsert_author_authorships (db : DB) (a : AuthorJson) :
    (upsert_author db a).authorships = db.authorships := rfl

theorem foldl_upsert_author_works (as : List AuthorJson) :
    ∀ db : DB, (as.foldl upsert_author db).works = db.works := by
  induction as with
  | nil => intro db; rfl
  | cons a t ih => intro db; rw [List.foldl_cons, ih, upsert_author_works]

theorem foldl_upsert_author_authorships (as : List AuthorJson) :
    ∀ db : DB, (as.foldl upsert_author db).authorships = db.authorships := by
  induction as with
  | nil => intro db; rfl
  | cons a t ih => intro db; rw [List.foldl_cons, ih, upsert_author_authorships]

theorem attach_authorships_works (db : DB) (wid : String) (wk : WorkJson) :
    (attach_authorships db wid wk).works = db.works := rfl

theorem attach_authorships_authors (db : DB) (wid : String) (wk : WorkJson) :
    (attach_authorships db wid wk).authors = db.authors := rfl

theorem mem_insertIgnoreAuthorship (rows : List AuthorshipRow) (row r : AuthorshipRow)
    (h : r ∈ insertIgnoreAuthorship rows row) : r ∈ rows ∨ r = row := by
  unfold insertIgnoreAuthorship at h
  split at h
  · exact Or.inl h
  · rcases List.mem_append.mp h with h | h
    · exact Or.inl h
    · exact Or.inr (List.mem_singleton.mp h)

theorem attach_authorships_rows (db : DB) (wid : String) (wk : WorkJson) :
    ∀ r ∈ (attach_authorships db wid wk).authorships,
      r ∈ db.authorships ∨ r.work_id = wid := by
  intro r hr
  refine foldl_preserve (fun r => r ∈ db.authorships ∨ r.work_id = wid) _
    ?_ wk.authorships db.authorships (fun r h => Or.inl h) r hr
  intro rows au hrows r' hr'
  cases hau : validAuthorId au.author_id with
  | none => rw [hau] at hr'; exact hrows r' hr'
  | some aid =>
    rw [hau] at hr'
    rcases mem_insertIgnoreAuthorship _ _ _ hr' with h | h
    · exact hrows r' h
    · subst h; exact Or.inr rfl

theorem processWork_authors (db : DB) (wk : WorkJson) :
    (processWork db wk).authors = db.authors := rfl

theorem processWork_works_isSome (db : DB) (wk : WorkJson) (k : String) :
    (lookupAssoc (processWork db wk).works k).isSome = true ↔
      k = wk.id ∨ (lookupAssoc db.works k).isSome = true := by
  show (lookupAssoc (upsertAssoc wk.id _ db.works) k).isSome = true ↔ _
  exact lookupAssoc_upsertAssoc_isSome wk.id _ db.works k

theorem processWork_authorships (db : DB) (wk : WorkJson) :
    ∀ r ∈ (processWork db wk).authorships, r ∈ db.authorships ∨ r.work_id = wk.id := by
  intro r hr
  exact attach_authorships_rows (upsert_work db wk) wk.id wk r hr

theorem foldl_processWork_authors (ws : List WorkJson) :
    ∀ db : DB, (ws.foldl processWork db).authors = db.authors := by
  induction ws with
  | nil => intro db; rfl
  | cons wk t ih => intro db; rw [List.foldl_cons, ih, processWork_authors]

theorem foldl_processWork_works (ws : List WorkJson) :
    ∀ (db : DB) (k : String),
      (lookupAssoc (ws.foldl processWork db).works k).isSome = true ↔
        (∃ wk ∈ ws, wk.id = k) ∨ (lookupAssoc db.works k).isSome = true := by
  induction ws with
  | nil => intro db k; simp
  | cons w t ih =>
    intro db k
    rw [List.foldl_cons, ih (processWork db w) k, processWork_works_isSome]
    constructor
    · rintro (⟨wk, hwk, rfl⟩ | hw | h)
      · exact Or.inl ⟨wk, List.mem_cons_of_mem w hwk, rfl⟩
      · exact Or.inl ⟨w, List.mem_cons_self w t, hw.symm⟩
      · exact Or.inr h
    · rintro (⟨wk, hwk, rfl⟩ | h)
      · rcases List.mem_cons.mp hwk with rfl | hwk
        · exact Or.inr (Or.inl rfl)
        · exact Or.inl ⟨wk, hwk, rfl⟩
      · exact Or.inr (Or.inr h)

theorem foldl_processWork_inv (ws : List WorkJson) :
    ∀ db : DB,
      (∀ r ∈ db.authorships, (lookupAssoc db.works r.work_id).isSome = true) →
      ∀ r ∈ (ws.foldl processWork db).authorships,
        (lookupAssoc (ws.foldl processWork db).works r.work_id).isSome = true := by
  induction ws with
  | nil => intro db h; simpa using h
  | cons w t ih =>
    intro db h
    rw [List.foldl_cons]
    refine ih (processWork db w) ?_
    intro r hr
    rw [processWork_works_isSome]
    rcases processWork_authorships db w r hr with hmem | hwid
    · exact Or.inr (h r hmem)
    · exact Or.inl hwid

theorem processAuthorWorks_db (st : DB × List String) (aid : String) (fr : WorksFetch) :
    (processAuthorWorks st aid fr).1 = fr.1.foldl processWork st.1 := by
  cases h : fr.2 <;> simp [processAuthorWorks, h]

theorem processAuthorWorks_log (st : DB × List String) (aid : String) (fr : WorksFetch) :
    (processAuthorWorks st aid fr).2 =
      if fr.2.isSome = true then st.2 ++ [warnMsg aid] else st.2 := by
  cases h : fr.2 <;> simp [processAuthorWorks, h]

theorem harvest_fold_inv (worksOf : String → WorksFetch) (aids : List String) :
    ∀ st : DB × List String,
      (∀ r ∈ st.1.authorships, (lookupAssoc st.1.works r.work_id).isSome = true) →
      ∀ r ∈ ((aids.foldl (fun st aid => processAuthorWorks st aid (worksOf aid)) st).1).authorships,
        (lookupAssoc ((aids.foldl (fun st aid => processAuthorWorks st aid (worksOf aid)) st).1).works
          r.work_id).isSome = true := by
  induction aids with
  | nil => intro st h; simpa using h
  | cons a t ih =>
    intro st h
    rw [List.foldl_cons]
    refine ih (processAuthorWorks st a (worksOf a)) ?_
    rw [processAuthorWorks_db]
    exact foldl_processWork_inv (worksOf a).1 st.1 h

theorem harvest_fold_log_mono (worksOf : String → WorksFetch) (aids : List String) :
    ∀ (st : DB × List String) (m : String), m ∈ st.2 →
      m ∈ (aids.foldl (fun st aid => processAuthorWorks st aid (worksOf aid)) st).2 := by
  induction aids with
  | nil => intro st m h; simpa using h
  | cons a t ih =>
    intro st m h
    rw [List.foldl_cons]
    refine ih _ m ?_
    rw [processAuthorWorks_log]
    split
    · exact List.mem_append_left _ h
    · exact h

theorem harvest_fold_warn (worksOf : String → WorksFetch) (aids : List String) :
    ∀ (st : DB × List String) (aid : String), aid ∈ aids → (worksOf aid).2.isSome = true →
      warnMsg aid ∈ (aids.foldl (fun st aid => processAuthorWorks st aid (worksOf aid)) st).2 := by
  induction aids with
  | nil => intro st aid h; simp at h
  | cons a t ih =>
    intro st aid hmem hfail
    rw [List.foldl_cons]
    rcases List.mem_cons.mp hmem with rfl | hmem
    · refine harvest_fold_log_mono worksOf t _ (warnMsg aid) ?_
      rw [processAuthorWorks_log, if_pos hfail]
      exact List.mem_append_right _ (List.mem_singleton.mpr rfl)
    · exact ih _ aid hmem hfail

theorem harvest_fold_works (worksOf : String → WorksFetch) (aids : List String) :
    ∀ (st : DB × List String) (k : String),
      (lookupAssoc ((aids.foldl (fun st aid => processAuthorWorks st aid (worksOf aid)) st).1).works
        k).isSome = true ↔
        (∃ aid ∈ aids, ∃ wk ∈ (worksOf aid).1, wk.id = k) ∨
          (lookupAssoc st.1.works k).isSome = true := by
  induction aids with
  | nil => intro st k; simp
  | cons a t ih =>
    intro st k
    rw [List.foldl_cons, ih (processAuthorWorks st a (worksOf a)) k, processAuthorWorks_db,
      foldl_processWork_works]
    constructor
    · rintro (h | ⟨wk, hwk, rfl⟩ | h)
      · obtain ⟨aid, haid, hwk⟩ := h
        exact Or.inl ⟨aid, List.mem_cons_of_mem a haid, hwk⟩
      · exact Or.inl ⟨a, List.mem_cons_self a t, wk, hwk, rfl⟩
      · exact Or.inr h
    · rintro (⟨aid, haid, wk, hwk, rfl⟩ | h)
      · rcases List.mem_cons.mp haid with rfl | haid
        · exact Or.inr (Or.inl ⟨wk, hwk, rfl⟩)
        · exact Or.inl ⟨aid, haid, wk, hwk, rfl⟩
      · exact Or.inr (Or.inr h)

/-- C2 (amended): after any harvest run — including runs where some per-author
work fetches fail and are skipped — every row of the authorship link table
references a work id that exists in the works table, because the work is
upserted before its authorship rows are attached.  The author-side of the
claim does not hold: authorship rows are inserted for every listed co-author
of a work, including co-authors never stored in the authors table. -/
theorem C2_authorship_work_ref_integrity (authorsIn : List AuthorJson)
    (worksOf : String → WorksFetch) :
    ∀ r ∈ (runHarvest authorsIn worksOf).1.authorships,
      (lookupAssoc (runHarvest authorsIn worksOf).1.works r.work_id).isSome = true := by
  intro r hr
  simp only [runHarvest] at hr ⊢
  refine harvest_fold_inv worksOf _ _ ?_ r hr
  intro r' hr'
  rw [foldl_upsert_author_authorships] at hr'
  simp at hr'

/-- C2 counterexample: a run harvesting only author A1, whose work W1 lists
the non-harvested co-author A2, leaves an authorship row referencing A2 while
no A2 row exists in the authors table — refuting the author-side referential
integrity the claim states. -/
theorem C2_counterexample :
    c2_row ∈ (runHarvest c2_authors c2_worksOf).1.authorships ∧
    lookupAssoc (runHarvest c2_authors c2_worksOf).1.authors c2_row.author_id = none := by
  constructor <;> decide

/-- C2 witness: the work-side integrity theorem applied to the concrete run at
the authorship row of co-author A2. -/
theorem C2_authorship_work_ref_integrity_witness :
    (lookupAssoc (runHarvest c2_authors c2_worksOf).1.works c2_row.work_id).isSome = true :=
  C2_authorship_work_ref_integrity c2_authors c2_worksOf c2_row (by decide)

/-- C9 (amended): a fetch error raised while listing one author's works is
caught at the per-author loop boundary: the run completes, the log contains
the warning naming that author, and the works table holds exactly the works
yielded across all authors' streams — so every other author's works are still
upserted, while the failing author contributes exactly the works its lazy
stream yielded before the failure (zero when the failure precedes the first
work, but not in general). -/
theorem C9_partial_failure_isolation (authorsIn : List AuthorJson)
    (worksOf : String → WorksFetch) :
    (∀ aid ∈ harvestAuthorIds authorsIn, (worksOf aid).2.isSome = true →
      warnMsg aid ∈ (runHarvest authorsIn worksOf).2) ∧
    (∀ k : String,
      (lookupAssoc (runHarvest authorsIn worksOf).1.works k).isSome = true ↔
        ∃ aid ∈ harvestAuthorIds authorsIn, ∃ wk ∈ (worksOf aid).1, wk.id = k) := by
  constructor
  · intro aid hmem hfail
    simp only [runHarvest]
    simp only [harvestAuthorIds] at hmem
    exact harvest_fold_warn worksOf _ _ aid hmem hfail
  · intro k
    simp only [runHarvest, harvestAuthorIds]
    rw [harvest_fold_works worksOf _ _ k]
    have hempty : (lookupAssoc (authorsIn.foldl upsert_author ⟨[], [], []⟩).works k).isSome
        = false := by
      rw [foldl_upsert_author_works]
      rfl
    simp [hempty]

/-- C9 counterexample: author A2's stream yields work W2 and only then raises
`RetriesExhausted`; the claim says a failing author-year contributes zero
works, but W2 ends up in the works table. -/
theorem C9_counterexample :
    (c9_worksOf "A2").2 = some (.retriesExceeded 503) ∧
    (∀ wk ∈ (c9_worksOf "A2").1, wk.id = "W2") ∧
    (lookupAssoc (runHarvest c9_authors c9_worksOf).1.works "W2").isSome = true := by
  refine ⟨rfl, by decide, by decide⟩

/-- C9 witness: in the three-author run where A2's stream fails, the warning
names A2 and A1's work W1 is still upserted. -/
theorem C9_partial_failure_isolation_witness :
    warnMsg "A2" ∈ (runHarvest c9_authors c9_worksOf).2 ∧
    (lookupAssoc (runHarvest c9_authors c9_worksOf).1.works "W1").isSome = true := by
  obtain ⟨h1, h2⟩ := C9_partial_failure_isolation c9_authors c9_worksOf
  refine ⟨h1 "A2" (by decide) (by decide), (h2 "W1").mpr ?_⟩
  exact ⟨"A1", by decide, c2_work, by decide, rfl⟩

/-! ## Lemmas: fact-table first-write-wins -/

theorem foldl_validAuthorId (aus : List AuthorshipJson) :
    ∀ (rows : List FactRow) (wid : String) (year : Option Int) (vt : Str),
      aus.foldl (fun fs au =>
        match validAuthorId au.author_id with
        | none => fs
        | some aid => insertIgnoreFact fs ⟨aid, wid, year, vt⟩) rows =
      (aus.filterMap (fun au => validAuthorId au.author_id)).foldl
        (fun fs aid => insertIgnoreFact fs ⟨aid, wid, year, vt⟩) rows := by
  induction aus with
  | nil => intros; rfl
  | cons au t ih =>
    intro rows wid year vt
    cases h : validAuthorId au.author_id <;>
      simp [List.foldl_cons, List.filterMap_cons, h, ih]

theorem upsert_fact_eq_fold (rows : List FactRow) (w : WorkConf) :
    upsert_fact rows w =
      (factAuthorIds w).foldl (fun fs aid => insertIgnoreFact fs (mkFactRow aid w)) rows := by
  simp only [upsert_fact, factAuthorIds, mkFactRow]
  exact foldl_validAuthorId w.authorships rows w.id w.publication_year (classify_venue_type w)

theorem factKeyPresent_insertIgnoreFact (a wid : String) (fs : List FactRow) (row : FactRow) :
    factKeyPresent a wid (insertIgnoreFact fs row) ↔
      factKeyPresent a wid fs ∨ factKeyIs a wid row := by
  unfold insertIgnoreFact
  split
  case isTrue hguard =>
    constructor
    · exact Or.inl
    · rintro (h | hkey)
      · exact h
      · obtain ⟨r, hr, h1, h2⟩ := hguard
        exact ⟨r, hr, h1.trans hkey.1, h2.trans hkey.2⟩
  case isFalse _ =>
    constructor
    · rintro ⟨r, hr, hk⟩
      rcases List.mem_append.mp hr with hr | hr
      · exact Or.inl ⟨r, hr, hk⟩
      · rw [List.mem_singleton.mp hr] at hk
        exact Or.inr hk
    · rintro (⟨r, hr, hk⟩ | hkey)
      · exact ⟨r, List.mem_append_left _ hr, hk⟩
      · exact ⟨row, List.mem_append_right _ (List.mem_singleton.mpr rfl), hkey⟩

theorem factFilter_insertIgnoreFact (a wid : String) (fs : List FactRow) (row : FactRow) :
    factFilter a wid (insertIgnoreFact fs row) =
      if factKeyIs a wid row ∧ ¬ factKeyPresent a wid fs
      then factFilter a wid fs ++ [row]
      else factFilter a wid fs := by
  unfold insertIgnoreFact
  split
  case isTrue hguard =>
    rw [if_neg]
    rintro ⟨hkey, hnone⟩
    obtain ⟨r, hr, h1, h2⟩ := hguard
    exact hnone ⟨r, hr, h1.trans hkey.1, h2.trans hkey.2⟩
  case isFalse hguard =>
    unfold factFilter
    rw [List.filter_append]
    by_cases hkey : factKeyIs a wid row
    · have hnp : ¬ factKeyPresent a wid fs := by
        rintro ⟨r, hr, hk⟩
        exact hguard ⟨r, hr, hk.1.trans hkey.1.symm, hk.2.trans hkey.2.symm⟩
      rw [if_pos ⟨hkey, hnp⟩]
      simp [hkey]
    · rw [if_neg (fun hc => hkey hc.1)]
      simp [hkey]

theorem factKeyIs_mkFactRow (a wid aid : String) (w : WorkConf) :
    factKeyIs a wid (mkFactRow aid w) ↔ aid = a ∧ w.id = wid := by
  simp [factKeyIs, mkFactRow]

theorem factFold_blocked (a wid : String) (w : WorkConf) (aids : List String) :
    ∀ fs, factKeyPresent a wid fs →
      factFilter a wid
          (aids.foldl (fun fs aid => insertIgnoreFact fs (mkFactRow aid w)) fs) =
        factFilter a wid fs ∧
      factKeyPresent a wid
        (aids.foldl (fun fs aid => insertIgnoreFact fs (mkFactRow aid w)) fs) := by
  induction aids with
  | nil => intro fs h; exact ⟨rfl, h⟩
  | cons aid t ih =>
    intro fs h
    rw [List.foldl_cons]
    have hstep := ih (insertIgnoreFact fs (mkFactRow aid w))
      ((factKeyPresent_insertIgnoreFact a wid fs (mkFactRow aid w)).mpr (Or.inl h))
    rw [hstep.1, factFilter_insertIgnoreFact, if_neg (fun hc => hc.2 h)]
    exact ⟨rfl, hstep.2⟩

theorem factFold_nokey (a wid : String) (w : WorkConf) (aids : List String) :
    ∀ fs, ¬ factKeyPresent a wid fs → ¬ (w.id = wid ∧ a ∈ aids) →
      factFilter a wid
          (aids.foldl (fun fs aid => insertIgnoreFact fs (mkFactRow aid w)) fs) =
        factFilter a wid fs ∧
      ¬ factKeyPresent a wid
        (aids.foldl (fun fs aid => insertIgnoreFact fs (mkFactRow aid w)) fs) := by
  induction aids with
  | nil => intro fs h _; exact ⟨rfl, h⟩
  | cons aid t ih =>
    intro fs h hno
    rw [List.foldl_cons]
    have hrow : ¬ factKeyIs a wid (mkFactRow aid w) := by
      rw [factKeyIs_mkFactRow]
      rintro ⟨rfl, hw⟩
      exact hno ⟨hw, List.mem_cons_self aid t⟩
    have hfresh : ¬ factKeyPresent a wid (insertIgnoreFact fs (mkFactRow aid w)) := by
      rw [factKeyPresent_insertIgnoreFact]
      rintro (hc | hc)
      · exact h hc
      · exact hrow hc
    have hstep := ih (insertIgnoreFact fs (mkFactRow aid w)) hfresh
      (fun hc => hno ⟨hc.1, List.mem_cons_of_mem aid hc.2⟩)
    rw [hstep.1, factFilter_insertIgnoreFact, if_neg (fun hc => hrow hc.1)]
    exact ⟨rfl, hstep.2⟩

theorem factFold_key (a : String) (w : WorkConf) (aids : List String) :
    ∀ fs, ¬ factKeyPresent a w.id fs → a ∈ aids →
      factFilter a w.id
          (aids.foldl (fun fs aid => insertIgnoreFact fs (mkFactRow aid w)) fs) =
        factFilter a w.id fs ++ [mkFactRow a w] ∧
      factKeyPresent a w.id
        (aids.foldl (fun fs aid => insertIgnoreFact fs (mkFactRow aid w)) fs) := by
  induction aids with
  | nil => intro fs _ hmem; simp at hmem
  | cons aid t ih =>
    intro fs h hmem
    rw [List.foldl_cons]
    by_cases haid : aid = a
    · subst haid
      have hrow : factKeyIs aid w.id (mkFactRow aid w) :=
        (factKeyIs_mkFactRow aid w.id aid w).mpr ⟨rfl, rfl⟩
      have hpres : factKeyPresent aid w.id (insertIgnoreFact fs (mkFactRow aid w)) :=
        (factKeyPresent_insertIgnoreFact aid w.id fs (mkFactRow aid w)).mpr (Or.inr hrow)
      have hblk := factFold_blocked aid w.id w t (insertIgnoreFact fs (mkFactRow aid w)) hpres
      rw [hblk.1, factFilter_insertIgnoreFact, if_pos ⟨hrow, h⟩]
      exact ⟨rfl, hblk.2⟩
    · have hrow : ¬ factKeyIs a w.id (mkFactRow aid w) := by
        rw [factKeyIs_mkFactRow]
        rintro ⟨hc, _⟩
        exact haid hc
      have hfresh : ¬ factKeyPresent a w.id (insertIgnoreFact fs (mkFactRow aid w)) := by
        rw [factKeyPresent_insertIgnoreFact]
        rintro (hc | hc)
        · exact h hc
        · exact hrow hc
      have hmem' : a ∈ t := by
        rcases List.mem_cons.mp hmem with hc | hc
        · exact absurd hc.symm haid
        · exact hc
      have hstep := ih (insertIgnoreFact fs (mkFactRow aid w)) hfresh hmem'
      rw [hstep.1, factFilter_insertIgnoreFact, if_neg (fun hc => hrow hc.1)]
      exact ⟨rfl, hstep.2⟩

theorem upsert_fact_blocked (a wid : String) (rows : List FactRow) (w : WorkConf)
    (h : factKeyPresent a wid rows) :
    factFilter a wid (upsert_fact rows w) = factFilter a wid rows ∧
      factKeyPresent a wid (upsert_fact rows w) := by
  rw [upsert_fact_eq_fold]
  exact factFold_blocked a wid w (factAuthorIds w) rows h

theorem upsert_fact_observes (a wid : String) (rows : List FactRow) (w : WorkConf)
    (h : ¬ factKeyPresent a wid rows) (hobs : observes a wid w) :
    factFilter a wid (upsert_fact rows w) = factFilter a wid rows ++ [mkFactRow a w] ∧
      factKeyPresent a wid (upsert_fact rows w) := by
  obtain ⟨hid, hmem⟩ := hobs
  subst hid
  rw [upsert_fact_eq_fold]
  exact factFold_key a w (factAuthorIds w) rows h hmem

theorem upsert_fact_not_observes (a wid : String) (rows : List FactRow) (w : WorkConf)
    (h : ¬ factKeyPresent a wid rows) (hobs : ¬ observes a wid w) :
    factFilter a wid (upsert_fact rows w) = factFilter a wid rows ∧
      ¬ factKeyPresent a wid (upsert_fact rows w) := by
  rw [upsert_fact_eq_fold]
  exact factFold_nokey a wid w (factAuthorIds w) rows h (fun hc => hobs ⟨hc.1, hc.2⟩)

theorem fact_stream_blocked (a wid : String) (ws : List WorkConf) :
    ∀ rows, factKeyPresent a wid rows →
      factFilter a wid (ws.foldl upsert_fact rows) = factFilter a wid rows := by
  induction ws with
  | nil => intro rows _; rfl
  | cons w t ih =>
    intro rows h
    rw [List.foldl_cons]
    have hstep := upsert_fact_blocked a wid rows w h
    rw [ih (upsert_fact rows w) hstep.2, hstep.1]

theorem fact_stream_spec (a wid : String) (ws : List WorkConf) :
    ∀ rows, ¬ factKeyPresent a wid rows →
      (∀ w1, ws.find? (fun w => decide (observes a wid w)) = some w1 →
        factFilter a wid (ws.foldl upsert_fact rows) =
          factFilter a wid rows ++ [mkFactRow a w1]) ∧
      (ws.find? (fun w => decide (observes a wid w)) = none →
        factFilter a wid (ws.foldl upsert_fact rows) = factFilter a wid rows) := by
  induction ws with
  | nil =>
    intro rows _
    exact ⟨fun w1 h => by simp at h, fun _ => rfl⟩
  | cons w t ih =>
    intro rows h
    by_cases hobs : observes a wid w
    · constructor
      · intro w1 hfind
        rw [List.find?_cons_of_pos _ (by simpa using hobs)] at hfind
        injection hfind with hfind
        subst hfind
        rw [List.foldl_cons]
        have hstep := upsert_fact_observes a wid rows w h hobs
        rw [fact_stream_blocked a wid t (upsert_fact rows w) hstep.2, hstep.1]
      · intro hfind
        rw [List.find?_cons_of_pos _ (by simpa using hobs)] at hfind
        exact absurd hfind (by simp)
    · have hstep := upsert_fact_not_observes a wid rows w h hobs
      constructor
      · intro w1 hfind
        rw [List.find?_cons_of_neg _ (by simpa using hobs)] at hfind
        rw [List.foldl_cons]
        rw [(ih (upsert_fact rows w) hstep.2).1 w1 hfind, hstep.1]
      · intro hfind
        rw [List.find?_cons_of_neg _ (by simpa using hobs)] at hfind
        rw [List.foldl_cons]
        rw [(ih (upsert_fact rows w) hstep.2).2 hfind, hstep.1]

/-- C8: fact uniqueness with first-write-wins: for an (author, work) pair
observed at least once in the stream of works an entire run feeds through
`upsert_fact` (across pages and across authors' streams), the resulting fact
table holds exactly one row for the pair, and that row carries the year and
classified venue type of the first work record observing the pair; all later
duplicate observations are absorbed without modifying it. -/
theorem C8_fact_first_write_wins (ws : List WorkConf) (a wid : String) (w1 : WorkConf)
    (hfind : ws.find? (fun w => decide (observes a wid w)) = some w1) :
    factFilter a wid (ws.foldl upsert_fact []) = [mkFactRow a w1] ∧
    (ws.foldl upsert_fact []).countP (fun r => decide (factKeyIs a wid r)) = 1 := by
  have h := (fact_stream_spec a wid ws [] (by simp [factKeyPresent])).1 w1 hfind
  have hfilter : factFilter a wid (ws.foldl upsert_fact []) = [mkFactRow a w1] := by
    rw [h]
    rfl
  refine ⟨hfilter, ?_⟩
  rw [List.countP_eq_length_filter]
  show (factFilter a wid (ws.foldl upsert_fact [])).length = 1
  rw [hfilter]
  rfl

/-- C8 witness: the pair (A1, W1) is observed twice — first with year 2023 via
a journal-typed record, then with year 2024 — and the single stored row keeps
the first observation's values. -/
theorem C8_fact_first_write_wins_witness :
    factFilter "A1" "W1" (c8_stream.foldl upsert_fact []) = [mkFactRow "A1" c8_w1] ∧
    (c8_stream.foldl upsert_fact []).countP
      (fun r => decide (factKeyIs "A1" "W1" r)) = 1 :=
  C8_fact_first_write_wins c8_stream "A1" "W1" c8_w1 (by decide)

end ResearchOutput
